import Mathlib

/-!
Shallow embedding of the validiter adapter chain (Rust crate `validiter`).

Each Rust adapter implements `Iterator::next`, pulling one item from the
inner iterator per call.  We model the inner iterator as a `List` of
results and each adapter's `next` as a function from its private state and
the pulled item (`Option` — `none` is inner exhaustion) to the produced
outcome (`Option` — `none` signals exhaustion to the consumer) and the new
state.  Generic drivers (`runNext`, `pullsNext`, `stateAfter`) thread a
`next` function over the source list.
-/

namespace Validiter

/-- Rust `Result<T, E>` as consumed/produced by the adapters. -/
inductive RResult (α : Type) (ε : Type) where
  | ok (val : α)
  | err (e : ε)
  deriving DecidableEq

/-- The `ValidErr` variants constructed by the adapters under scrutiny
(`src/at_most.rs`, `src/at_least.rs`, `src/between.rs`, `src/ensure.rs`,
`src/const_over.rs`, `src/look_back.rs`, `src/lift_errs.rs`); message
payloads (`String` / `Option<String>`) follow each constructing site. -/
inductive ValidErr (α : Type) where
  | tooMany (element : α) (msg : String)
  | tooFew (msg : String)
  | outOfBounds (element : α) (msg : Option String)
  | invalid (element : α) (msg : String)
  | brokenConstant (element : α) (msg : Option String)
  | lookBackFailed (element : α) (msg : String)
  | lifted
  deriving DecidableEq

/-- The `ValidErr` of the `cast_errs.rs` era, reconstructed from the
exhaustive match in `CastErrs::next` and the tests of `cast_errs.rs`
(`Description(Rc<str>)`, `WithElement(E, Rc<str>)`; `Rc<str>` modelled as
`String`). -/
inductive CValidErr (α : Type) where
  | description (desc : String)
  | withElement (element : α) (desc : String)
  deriving DecidableEq

/-- `VResult<E> = Result<E, ValidErr<E>>` from `src/valid_result.rs`. -/
abbrev VResult (α : Type) := RResult α (ValidErr α)

/-- Is this item an accepted (`Ok`) element? -/
def isAccepted : RResult α ε → Bool
  | .ok _ => true
  | .err _ => false

/-- Number of accepted (`Ok`) items in a source list. -/
def acceptedCount (l : List (RResult α ε)) : Nat :=
  l.countP isAccepted

/-- Drive an adapter's `next` over a whole source list, collecting every
produced outcome (a `none` outcome produces nothing). -/
def runNext (next : σ → Option ι → Option ω × σ) : σ → List ι → List ω
  | _, [] => []
  | s, x :: xs =>
    (next s (some x)).1.toList ++ runNext next ((next s (some x)).2) xs

/-- The adapter state after consuming a whole source list. -/
def stateAfter (next : σ → Option ι → Option ω × σ) : σ → List ι → σ
  | s, [] => s
  | s, x :: xs => stateAfter next ((next s (some x)).2) xs

/-- The sequence of results of `n` consumer pulls: while the source list is
nonempty each pull feeds the adapter the head, afterwards it feeds `none`
(inner exhaustion), exactly as a Rust iterator over a finite sequence. -/
def pullsNext (next : σ → Option ι → Option ω × σ) :
    Nat → σ → List ι → List (Option ω)
  | 0, _, _ => []
  | n + 1, s, [] =>
    (next s none).1 :: pullsNext next n ((next s none).2) []
  | n + 1, s, x :: xs =>
    (next s (some x)).1 :: pullsNext next n ((next s (some x)).2) xs

/-! ### `AtMost` (`src/at_most.rs`, lines 53–68)

State: `position : usize` (starts at 0), parameters `max_count` and the
message closure `Msg: Fn(&BaseType, &usize) -> String`. -/

/-- `AtMost::next`: on `Ok(val)`, if `position < max_count` increment
`position` and forward; else wrap in `ValidErr::TooMany(val, msg)` without
incrementing.  Other items (errors, exhaustion) pass through. -/
def atMostNext (maxCount : Nat) (msgW : α → Nat → String)
    (position : Nat) : Option (VResult α) → Option (VResult α) × Nat
  | some (.ok val) =>
    if position < maxCount then (some (.ok val), position + 1)
    else (some (.err (.tooMany val (msgW val maxCount))), position)
  | some (.err e) => (some (.err e), position)
  | none => (none, position)

/-! ### `AtLeast` (`src/at_least.rs`, lines 46–62)

State: `counter : usize` (starts at 0), parameters `min_count` and the
message closure `Msg: Fn(&usize, &usize) -> String`. -/

/-- `AtLeast::next`: on `Ok(val)` increment `counter` and forward; on
exhaustion, if `counter >= min_count` signal exhaustion, else emit one
`ValidErr::TooFew(msg)` and set `counter = min_count` (so the next pull
signals exhaustion).  Errors pass through. -/
def atLeastNext (minCount : Nat) (msgW : Nat → Nat → String)
    (counter : Nat) : Option (VResult α) → Option (VResult α) × Nat
  | some (.ok val) => (some (.ok val), counter + 1)
  | none =>
    if counter ≥ minCount then (none, counter)
    else (some (.err (.tooFew (msgW counter minCount))), minCount)
  | some (.err e) => (some (.err e), counter)

/-! ### `Between` (`src/between.rs`, lines 129–140)

Stateless; parameters `lower_bound`, `upper_bound` and the `PartialOrd`
comparison, modelled as a boolean relation `le` (for incomparable values,
e.g. NaN, `le` is `false` both ways, exactly like `<=` on `PartialOrd`). -/

/-- `Between::next`: on `Ok(val)`, forward iff
`lower_bound <= val && val <= upper_bound`, else wrap in
`ValidErr::OutOfBounds { element, msg: None }`.  Other items pass through. -/
def betweenNext (le : α → α → Bool) (lower upper : α)
    (s : Unit) : Option (VResult α) → Option (VResult α) × Unit
  | some (.ok val) =>
    if le lower val && le val upper then (some (.ok val), s)
    else (some (.err (.outOfBounds val none)), s)
  | other => (other, s)

/-! ### `Ensure` (`src/ensure.rs`, lines 53–64)

Stateless; parameters: the validation predicate and the message closure. -/

/-- `Ensure::next`: on `Ok(val)`, forward iff `validation(&val)`, else wrap
in `ValidErr::Invalid(val, msg)`.  Other items pass through. -/
def ensureNext (validation : α → Bool) (msgW : α → String)
    (s : Unit) : Option (VResult α) → Option (VResult α) × Unit
  | some (.ok val) =>
    if validation val then (some (.ok val), s)
    else (some (.err (.invalid val (msgW val))), s)
  | other => (other, s)

/-! ### `ConstOver` (`src/const_over.rs`, lines 195–212)

State: `stored_value : Option<A>` (starts `None`); parameters: the
extractor `M: Fn(&BaseType) -> A` and the `PartialEq` comparison on `A`,
modelled as a boolean relation `beq`. -/

/-- `ConstOver::next`: on `Ok(val)`, if `stored_value` is `Some(expected)`
forward iff `extractor(&val) == expected`, else wrap in
`ValidErr::BrokenConstant { element, msg: None }`; if `stored_value` is
`None`, set it to `Some(extractor(&val))` and forward.  Other items pass
through, leaving `stored_value` untouched. -/
def constOverNext (beq : β → β → Bool) (extractor : α → β)
    (stored : Option β) : Option (VResult α) → Option (VResult α) × Option β
  | some (.ok val) =>
    match stored with
    | some expected =>
      if beq (extractor val) expected then (some (.ok val), stored)
      else (some (.err (.brokenConstant val none)), stored)
    | none => (some (.ok val), some (extractor val))
  | other => (other, stored)

/-! ### `LookBack` (`src/look_back.rs`, lines 66–103)

State: `pos : usize` (starts at 0) and `value_store : [A; N]`
(initialised with `A::default()`), modelled as a `List` of length `N`
with `Inhabited.default` standing for `A::default()`.  Parameters: the
extractor, the validation `F: FnMut(&A, &BaseType) -> bool` and the
message closure. -/

/-- `LookBack::next`: first the `value_store.len() == 0` guard returns the
inner item untouched.  Otherwise on `Ok(val)`: if `pos >= N`, let
`cycle_index = pos % N` and `former = value_store[cycle_index]`; if
`validation(former, &val)` holds, overwrite the slot with
`extractor(&val)`, increment `pos` and forward, else wrap in
`ValidErr::LookBackFailed(val, msg)` leaving `pos` and the store
untouched.  If `pos < N`, store `extractor(&val)` at index `pos`,
increment `pos` and forward unconditionally.  Other items pass through. -/
def lookBackNext [Inhabited β] (N : Nat) (extractor : α → β)
    (validation : β → α → Bool) (msgW : α → β → String)
    (s : Nat × List β) : Option (VResult α) → Option (VResult α) × (Nat × List β) :=
  fun input =>
    if s.2.length = 0 then (input, s)
    else
      match input with
      | some (.ok val) =>
        if s.1 ≥ N then
          let cycleIndex := s.1 % N
          let former := s.2.getD cycleIndex default
          if validation former val then
            (some (.ok val), (s.1 + 1, s.2.set cycleIndex (extractor val)))
          else
            (some (.err (.lookBackFailed val (msgW val former))), s)
        else
          (some (.ok val), (s.1 + 1, s.2.set s.1 (extractor val)))
      | other => (other, s)

/-- `LookBack::new`: `pos = 0`, `value_store = [(); N].map(|_| A::default())`. -/
def lookBackInit (β : Type) [Inhabited β] (N : Nat) : Nat × List β :=
  (0, List.replicate N default)

/-! ### `LiftErrs` (`src/lift_errs.rs`, lines 26–32)

Stateless bridging adapter: input items are
`Result<OkType, ValidErr<ErrType>>`, output items are
`Result<OkType, ValidErr<OkType>>`. -/

/-- `LiftErrs::next`: `Err(_)` (whatever its content) becomes
`Err(ValidErr::Lifted)`, `Ok` passes through, exhaustion is forwarded. -/
def liftErrsNext {t u : Type} (s : Unit) :
    Option (RResult t (ValidErr u)) →
      Option (RResult t (ValidErr t)) × Unit
  | some (.err _) => (some (.err .lifted), s)
  | some (.ok v) => (some (.ok v), s)
  | none => (none, s)

/-! ### `CastErrs` (`src/cast_errs.rs`, lines 28–35)

Stateless bridging adapter over the `Description`/`WithElement` error
era: input items are `Result<OkType, ValidErr<ErrType>>`, output items
`Result<OkType, ValidErr<OkType>>`. -/

/-- `CastErrs::next`: `Err(Description(desc))` stays
`Err(Description(desc))`, `Err(WithElement(_, desc))` becomes
`Err(Description(desc))` (dropping the element, keeping the description),
`Ok` passes through, exhaustion is forwarded. -/
def castErrsNext {t u : Type} (s : Unit) :
    Option (RResult t (CValidErr u)) →
      Option (RResult t (CValidErr t)) × Unit
  | some (.err (.description desc)) => (some (.err (.description desc)), s)
  | some (.err (.withElement _ desc)) => (some (.err (.description desc)), s)
  | some (.ok v) => (some (.ok v), s)
  | none => (none, s)

/-! ## Generic driver lemmas -/

/-- If an adapter produces one outcome for every pulled item, driving it
over a source list yields exactly one outcome per item. -/
theorem runNext_length (next : σ → Option ι → Option ω × σ)
    (h : ∀ s x, ((next s (some x)).1).isSome = true) :
    ∀ (s : σ) (l : List ι), (runNext next s l).length = l.length := by
  intro s l
  induction l generalizing s with
  | nil => rfl
  | cons x xs ih =>
    obtain ⟨y, hy⟩ := Option.isSome_iff_exists.mp (h s x)
    simp [runNext, hy, ih]

/-- If an adapter produces one outcome per item and every produced outcome
stands in relation `R` to the item it was produced from, then every output
position is `R`-related to the same input position. -/
theorem runNext_rel (next : σ → Option ι → Option ω × σ) (R : ι → ω → Prop)
    (h : ∀ s x, ((next s (some x)).1).isSome = true)
    (hR : ∀ s x y, (next s (some x)).1 = some y → R x y) :
    ∀ (s : σ) (l : List ι) (i : Nat) (y : ω),
      (runNext next s l)[i]? = some y → ∃ x, l[i]? = some x ∧ R x y := by
  intro s l
  induction l generalizing s with
  | nil => intro i y hy; simp [runNext] at hy
  | cons x xs ih =>
    intro i y hy
    obtain ⟨y0, hy0⟩ := Option.isSome_iff_exists.mp (h s x)
    rw [runNext, hy0] at hy
    match i with
    | 0 =>
      simp at hy
      exact ⟨x, by simp, hy ▸ hR s x y0 hy0⟩
    | i + 1 =>
      simp only [Option.toList_some, List.singleton_append, List.getElem?_cons_succ] at hy
      obtain ⟨x', hx', hR'⟩ := ih ((next s (some x)).2) i y hy
      exact ⟨x', by simpa using hx', hR'⟩

/-! ## Per-adapter step facts -/

section StepFacts

variable {α β okT errT : Type}

theorem atMostNext_isSome (mc : Nat) (msgW : α → Nat → String) :
    ∀ (pos : Nat) (x : VResult α), ((atMostNext mc msgW pos (some x)).1).isSome = true := by
  intro pos x
  cases x with
  | ok v => simp only [atMostNext]; split <;> rfl
  | err e => rfl

theorem atLeastNext_isSome (k : Nat) (msgW : Nat → Nat → String) :
    ∀ (c : Nat) (x : VResult α), ((atLeastNext k msgW c (some x)).1).isSome = true := by
  intro c x
  cases x with
  | ok v => rfl
  | err e => rfl

theorem betweenNext_isSome (le : α → α → Bool) (lower upper : α) :
    ∀ (s : Unit) (x : VResult α), ((betweenNext le lower upper s (some x)).1).isSome = true := by
  intro s x
  cases x with
  | ok v => simp only [betweenNext]; split <;> rfl
  | err e => rfl

theorem ensureNext_isSome (p : α → Bool) (msgW : α → String) :
    ∀ (s : Unit) (x : VResult α), ((ensureNext p msgW s (some x)).1).isSome = true := by
  intro s x
  cases x with
  | ok v => simp only [ensureNext]; split <;> rfl
  | err e => rfl

theorem constOverNext_isSome (beq : β → β → Bool) (ext : α → β) :
    ∀ (s : Option β) (x : VResult α), ((constOverNext beq ext s (some x)).1).isSome = true := by
  intro s x
  cases x with
  | ok v =>
    cases s with
    | some r => simp only [constOverNext]; split <;> rfl
    | none => rfl
  | err e => rfl

theorem lookBackNext_isSome [Inhabited β] (N : Nat) (ext : α → β)
    (valid : β → α → Bool) (msgW : α → β → String) :
    ∀ (s : Nat × List β) (x : VResult α),
      ((lookBackNext N ext valid msgW s (some x)).1).isSome = true := by
  intro s x
  cases x with
  | ok v =>
    simp only [lookBackNext]
    split
    · rfl
    · split
      · split <;> rfl
      · rfl
  | err e =>
    simp only [lookBackNext]
    split <;> rfl

theorem liftErrsNext_isSome :
    ∀ (s : Unit) (x : RResult okT (ValidErr errT)),
      ((liftErrsNext s (some x)).1).isSome = true := by
  intro s x
  cases x with
  | ok v => rfl
  | err e => rfl

theorem castErrsNext_isSome :
    ∀ (s : Unit) (x : RResult okT (CValidErr errT)),
      ((castErrsNext s (some x)).1).isSome = true := by
  intro s x
  cases x with
  | ok v => rfl
  | err e => cases e <;> rfl

theorem atMostNext_ok_src (mc : Nat) (msgW : α → Nat → String) :
    ∀ (pos : Nat) (x : VResult α) (v : α),
      (atMostNext mc msgW pos (some x)).1 = some (.ok v) → x = .ok v := by
  intro pos x v h
  cases x with
  | ok u =>
    simp only [atMostNext] at h
    split at h
    · injection h
    · simp at h
  | err e => simp [atMostNext] at h

theorem atLeastNext_ok_src (k : Nat) (msgW : Nat → Nat → String) :
    ∀ (c : Nat) (x : VResult α) (v : α),
      (atLeastNext k msgW c (some x)).1 = some (.ok v) → x = .ok v := by
  intro c x v h
  cases x with
  | ok u => injection h
  | err e => simp [atLeastNext] at h

theorem betweenNext_ok_src (le : α → α → Bool) (lower upper : α) :
    ∀ (s : Unit) (x : VResult α) (v : α),
      (betweenNext le lower upper s (some x)).1 = some (.ok v) → x = .ok v := by
  intro s x v h
  cases x with
  | ok u =>
    simp only [betweenNext] at h
    split at h
    · injection h
    · simp at h
  | err e => simp [betweenNext] at h

theorem ensureNext_ok_src (p : α → Bool) (msgW : α → String) :
    ∀ (s : Unit) (x : VResult α) (v : α),
      (ensureNext p msgW s (some x)).1 = some (.ok v) → x = .ok v := by
  intro s x v h
  cases x with
  | ok u =>
    simp only [ensureNext] at h
    split at h
    · injection h
    · simp at h
  | err e => simp [ensureNext] at h

theorem constOverNext_ok_src (beq : β → β → Bool) (ext : α → β) :
    ∀ (s : Option β) (x : VResult α) (v : α),
      (constOverNext beq ext s (some x)).1 = some (.ok v) → x = .ok v := by
  intro s x v h
  cases x with
  | ok u =>
    cases s with
    | some r =>
      simp only [constOverNext] at h
      split at h
      · injection h
      · simp at h
    | none => injection h
  | err e => simp [constOverNext] at h

theorem lookBackNext_ok_src [Inhabited β] (N : Nat) (ext : α → β)
    (valid : β → α → Bool) (msgW : α → β → String) :
    ∀ (s : Nat × List β) (x : VResult α) (v : α),
      (lookBackNext N ext valid msgW s (some x)).1 = some (.ok v) → x = .ok v := by
  intro s x v h
  cases x with
  | ok u =>
    simp only [lookBackNext] at h
    split at h
    · injection h
    · split at h
      · split at h
        · injection h
        · simp at h
      · injection h
  | err e =>
    simp only [lookBackNext] at h
    split at h <;> simp at h

theorem liftErrsNext_ok_src :
    ∀ (s : Unit) (x : RResult okT (ValidErr errT)) (v : okT),
      (liftErrsNext s (some x)).1 = some (.ok v) → x = .ok v := by
  intro s x v h
  cases x with
  | ok u =>
    injection h with h1
    injection h1 with h2
    rw [h2]
  | err e => simp [liftErrsNext] at h

theorem castErrsNext_ok_src :
    ∀ (s : Unit) (x : RResult okT (CValidErr errT)) (v : okT),
      (castErrsNext s (some x)).1 = some (.ok v) → x = .ok v := by
  intro s x v h
  cases x with
  | ok u =>
    injection h with h1
    injection h1 with h2
    rw [h2]
  | err e => cases e <;> simp [castErrsNext] at h

end StepFacts

/-- Accepted outcomes in the output come from the same position of the
input, carrying the same value. -/
theorem runNext_ok_preserve {γ ε₁ ε₂ : Type}
    (next : σ → Option (RResult γ ε₁) → Option (RResult γ ε₂) × σ)
    (h : ∀ s x, ((next s (some x)).1).isSome = true)
    (hok : ∀ s x v, (next s (some x)).1 = some (.ok v) → x = .ok v) :
    ∀ (s : σ) (l : List (RResult γ ε₁)) (i : Nat) (v : γ),
      (runNext next s l)[i]? = some (.ok v) → l[i]? = some (.ok v) := by
  intro s l i v hv
  obtain ⟨x, hx, hR⟩ := runNext_rel next (fun x y => ∀ w, y = .ok w → x = .ok w) h
    (fun s x y hy w hw => hok s x w (hw ▸ hy)) s l i (.ok v) hv
  rw [hR v rfl] at hx
  exact hx

/-! ## Counting accepted items -/

theorem acceptedCount_nil {α ε : Type} :
    acceptedCount ([] : List (RResult α ε)) = 0 := rfl

theorem acceptedCount_cons_ok {α ε : Type} (v : α) (l : List (RResult α ε)) :
    acceptedCount (RResult.ok v :: l) = acceptedCount l + 1 := by
  simp [acceptedCount, List.countP_cons, isAccepted]

theorem acceptedCount_cons_err {α ε : Type} (e : ε) (l : List (RResult α ε)) :
    acceptedCount (RResult.err e :: l) = acceptedCount l := by
  simp [acceptedCount, List.countP_cons, isAccepted]

/-! ## `AtLeast` behaviour over whole sources -/

section AtLeastFacts

variable {α : Type} (k : Nat) (msgW : Nat → Nat → String)

/-- `AtLeast` forwards every item unchanged while the source lasts. -/
theorem atLeast_run_id :
    ∀ (l : List (VResult α)) (c : Nat), runNext (atLeastNext k msgW) c l = l := by
  intro l
  induction l with
  | nil => intro c; rfl
  | cons x xs ih =>
    intro c
    cases x with
    | ok v => simp [runNext, atLeastNext, ih]
    | err e => simp [runNext, atLeastNext, ih]

/-- The `AtLeast` counter after the whole source is the initial counter
plus the number of accepted items. -/
theorem atLeast_stateAfter :
    ∀ (l : List (VResult α)) (c : Nat),
      stateAfter (atLeastNext k msgW) c l = c + acceptedCount l := by
  intro l
  induction l with
  | nil => intro c; simp [stateAfter, acceptedCount]
  | cons x xs ih =>
    intro c
    cases x with
    | ok v =>
      simp only [stateAfter, atLeastNext]
      rw [ih (c + 1), acceptedCount_cons_ok]
      omega
    | err e =>
      simp only [stateAfter, atLeastNext]
      rw [ih c, acceptedCount_cons_err]

/-- Pulling no further than the source's length yields exactly the
forwarded prefix — no synthetic outcome. -/
theorem atLeast_pulls_take :
    ∀ (l : List (VResult α)) (n c : Nat), n ≤ l.length →
      pullsNext (atLeastNext k msgW) n c l = (l.take n).map some := by
  intro l
  induction l with
  | nil =>
    intro n c hn
    have hn0 : n = 0 := by simpa using hn
    subst hn0
    rfl
  | cons x xs ih =>
    intro n c hn
    match n with
    | 0 => rfl
    | n + 1 =>
      cases x with
      | ok v =>
        simp only [pullsNext, atLeastNext, List.take_succ_cons, List.map_cons]
        exact congrArg _ (ih n (c + 1) (by simpa using hn))
      | err e =>
        simp only [pullsNext, atLeastNext, List.take_succ_cons, List.map_cons]
        exact congrArg _ (ih n c (by simpa using hn))

/-- Once exhausted with the threshold met, every further pull signals
exhaustion. -/
theorem atLeast_pulls_exhausted_ge :
    ∀ (n c : Nat), k ≤ c →
      pullsNext (atLeastNext (α := α) k msgW) n c [] = List.replicate n none := by
  intro n
  induction n with
  | zero => intro c _; rfl
  | succ n ih =>
    intro c hc
    simp only [pullsNext, atLeastNext, ge_iff_le, if_pos hc]
    rw [ih c hc, List.replicate_succ]

/-- Once exhausted with the threshold missed, the next pull emits the one
synthetic `TooFew` and every pull after that signals exhaustion. -/
theorem atLeast_pulls_exhausted_lt :
    ∀ (j c : Nat), c < k →
      pullsNext (atLeastNext (α := α) k msgW) (j + 1) c []
        = some (RResult.err (ValidErr.tooFew (msgW c k))) :: List.replicate j none := by
  intro j c hc
  simp only [pullsNext, atLeastNext, ge_iff_le, if_neg (by omega : ¬ k ≤ c)]
  rw [atLeast_pulls_exhausted_ge k msgW j k (le_refl k)]

/-- Pulling past the source splits into the forwarded source followed by
the end-of-source pulls, started at counter `c +` the accepted count. -/
theorem atLeast_pulls_split :
    ∀ (l : List (VResult α)) (m c : Nat),
      pullsNext (atLeastNext k msgW) (l.length + m) c l
        = l.map some ++ pullsNext (atLeastNext k msgW) m (c + acceptedCount l) [] := by
  intro l
  induction l with
  | nil => intro m c; simp [acceptedCount]
  | cons x xs ih =>
    intro m c
    have hn : (x :: xs).length + m = (xs.length + m) + 1 := by
      simp [List.length_cons]; omega
    rw [hn]
    cases x with
    | ok v =>
      simp only [pullsNext, atLeastNext, List.map_cons, List.cons_append]
      rw [ih m (c + 1), acceptedCount_cons_ok]
      have harr : c + 1 + acceptedCount xs = c + (acceptedCount xs + 1) := by omega
      rw [harr]
    | err e =>
      simp only [pullsNext, atLeastNext, List.map_cons, List.cons_append]
      rw [ih m c, acceptedCount_cons_err]

end AtLeastFacts

/-! ## `AtMost` behaviour over whole sources -/

section AtMostFacts

variable {α : Type} (mc : Nat) (msgW : α → Nat → String)

/-- Position-wise characterisation of `AtMost` on accepted items: the item
at position `i` is forwarded when the accepted items before it keep the
counter under the cap, and wrapped in `TooMany` otherwise. -/
theorem atMost_run_get_ok :
    ∀ (l : List (VResult α)) (pos i : Nat) (v : α),
      l[i]? = some (RResult.ok v) →
      (runNext (atMostNext mc msgW) pos l)[i]? =
        some (if pos + acceptedCount (l.take i) < mc then RResult.ok v
              else RResult.err (ValidErr.tooMany v (msgW v mc))) := by
  intro l
  induction l with
  | nil => intro pos i v hx; simp at hx
  | cons y ys ih =>
    intro pos i v hx
    match i with
    | 0 =>
      simp only [List.getElem?_cons_zero, Option.some.injEq] at hx
      subst hx
      by_cases hlt : pos < mc
      · simp [runNext, atMostNext, hlt, acceptedCount]
      · simp [runNext, atMostNext, hlt, acceptedCount]
    | i + 1 =>
      simp only [List.getElem?_cons_succ] at hx
      cases y with
      | ok u =>
        by_cases hlt : pos < mc
        · have hrec := ih (pos + 1) i v hx
          simp only [runNext, atMostNext, if_pos hlt, Option.toList_some,
            List.singleton_append, List.getElem?_cons_succ]
          rw [hrec, List.take_succ_cons, acceptedCount_cons_ok]
          have harr : pos + 1 + acceptedCount (ys.take i)
              = pos + (acceptedCount (ys.take i) + 1) := by omega
          rw [harr]
        · have hrec := ih pos i v hx
          simp only [runNext, atMostNext, if_neg hlt, Option.toList_some,
            List.singleton_append, List.getElem?_cons_succ]
          rw [hrec, List.take_succ_cons, acceptedCount_cons_ok,
            if_neg (by omega), if_neg (by omega)]
      | err e =>
        have hrec := ih pos i v hx
        simp only [runNext, atMostNext, Option.toList_some,
          List.singleton_append, List.getElem?_cons_succ]
        rw [hrec, List.take_succ_cons, acceptedCount_cons_err]

/-- `AtMost` forwards error items untouched at their position. -/
theorem atMost_run_get_err :
    ∀ (l : List (VResult α)) (pos i : Nat) (e : ValidErr α),
      l[i]? = some (RResult.err e) →
      (runNext (atMostNext mc msgW) pos l)[i]? = some (RResult.err e) := by
  intro l
  induction l with
  | nil => intro pos i e hx; simp at hx
  | cons y ys ih =>
    intro pos i e hx
    match i with
    | 0 =>
      simp only [List.getElem?_cons_zero, Option.some.injEq] at hx
      subst hx
      simp [runNext, atMostNext]
    | i + 1 =>
      simp only [List.getElem?_cons_succ] at hx
      cases y with
      | ok u =>
        by_cases hlt : pos < mc
        · simpa only [runNext, atMostNext, if_pos hlt, Option.toList_some,
            List.singleton_append, List.getElem?_cons_succ] using ih (pos + 1) i e hx
        · simpa only [runNext, atMostNext, if_neg hlt, Option.toList_some,
            List.singleton_append, List.getElem?_cons_succ] using ih pos i e hx
      | err e' =>
        simpa only [runNext, atMostNext, Option.toList_some,
          List.singleton_append, List.getElem?_cons_succ] using ih pos i e hx

/-- The `AtMost` position counter after the whole source: it stops
incrementing at the cap, and is never incremented by a rejected item. -/
theorem atMost_stateAfter :
    ∀ (l : List (VResult α)) (pos : Nat),
      stateAfter (atMostNext mc msgW) pos l
        = if mc ≤ pos then pos else min (pos + acceptedCount l) mc := by
  intro l
  induction l with
  | nil =>
    intro pos
    simp only [stateAfter, acceptedCount, List.countP_nil, Nat.add_zero, Nat.min_def]
    split_ifs <;> omega
  | cons x xs ih =>
    intro pos
    cases x with
    | ok v =>
      by_cases hlt : pos < mc
      · simp only [stateAfter, atMostNext, if_pos hlt]
        rw [ih (pos + 1), acceptedCount_cons_ok]
        simp only [Nat.min_def]
        split_ifs <;> omega
      · simp only [stateAfter, atMostNext, if_neg hlt]
        rw [ih pos, acceptedCount_cons_ok]
        simp only [Nat.min_def]
        split_ifs <;> omega
    | err e =>
      simp only [stateAfter, atMostNext]
      rw [ih pos, acceptedCount_cons_err]

end AtMostFacts

/-! ## `LookBack` with an empty store, `ConstOver` reference stability -/

section MoreFacts

variable {α β : Type} [Inhabited β]

/-- With an empty `value_store` the `LookBack` guard forwards the pulled
item untouched, whatever it is. -/
theorem lookBack_empty_store_next (N : Nat) (ext : α → β)
    (valid : β → α → Bool) (msgW : α → β → String)
    (pos : Nat) (input : Option (VResult α)) :
    lookBackNext N ext valid msgW (pos, ([] : List β)) input = (input, (pos, [])) := rfl

/-- With an empty `value_store`, `LookBack` is the identity on any source. -/
theorem lookBack_empty_store_run (N : Nat) (ext : α → β)
    (valid : β → α → Bool) (msgW : α → β → String) :
    ∀ (l : List (VResult α)) (pos : Nat),
      runNext (lookBackNext N ext valid msgW) (pos, ([] : List β)) l = l := by
  intro l
  induction l with
  | nil => intro pos; rfl
  | cons x xs ih =>
    intro pos
    rw [runNext, lookBack_empty_store_next]
    simpa using ih pos

/-- With an empty `value_store`, `LookBack` never touches its state. -/
theorem lookBack_empty_store_stateAfter (N : Nat) (ext : α → β)
    (valid : β → α → Bool) (msgW : α → β → String) :
    ∀ (l : List (VResult α)) (pos : Nat),
      stateAfter (lookBackNext N ext valid msgW) (pos, ([] : List β)) l = (pos, []) := by
  intro l
  induction l with
  | nil => intro pos; rfl
  | cons x xs ih =>
    intro pos
    rw [stateAfter, lookBack_empty_store_next]
    exact ih pos

end MoreFacts

/-- A single `ConstOver` step never modifies an already-set reference. -/
theorem constOver_stored_next {α β : Type} (beq : β → β → Bool) (ext : α → β) (r : β)
    (input : Option (VResult α)) :
    (constOverNext beq ext (some r) input).2 = some r := by
  cases input with
  | none => rfl
  | some x =>
    cases x with
    | ok v => simp only [constOverNext]; split <;> rfl
    | err e => rfl

/-! ## Claims -/

/-- C1 (counterexample): the pass-through rule does not extend to the
bridging adapters — `LiftErrs::next` maps an already-rejected input to the
`Lifted` marker, an output different from its input, refuting the claim
that every adapter including the bridging ones forwards rejected inputs
identically. -/
theorem C1_counterexample :
    liftErrsNext (t := Nat) (u := Nat) ()
        (some (RResult.err (ValidErr.tooFew "m")))
      ≠ (some (RResult.err (ValidErr.tooFew "m")), ()) := by
  decide

/-- C1 (amended): every adapter consuming an outcome stream (at_most,
at_least, between, ensure, const_over, look_back) forwards an
already-rejected item identically and leaves its internal state (counter,
position, stored reference, buffer) unchanged; the bridging adapters
instead replace every rejected input — lift_errs with the contentless
`Lifted` marker, cast_errs with `Description` carrying only the
description of the input error. -/
theorem C1_rejected_pass_through (α β okT okT2 errT errT2 : Type) [Inhabited β]
    (mc : Nat) (msgWm : α → Nat → String) (pos : Nat)
    (k : Nat) (msgWl : Nat → Nat → String) (c : Nat)
    (le : α → α → Bool) (lower upper : α)
    (p : α → Bool) (msgWe : α → String)
    (beq : β → β → Bool) (ext : α → β) (stored : Option β)
    (N : Nat) (extLB : α → β) (validLB : β → α → Bool) (msgWlb : α → β → String)
    (st : Nat × List β)
    (e : ValidErr α) (e2 : ValidErr errT) (x : errT2) (d : String) :
    atMostNext mc msgWm pos (some (RResult.err e)) = (some (RResult.err e), pos)
    ∧ atLeastNext k msgWl c (some (RResult.err e)) = (some (RResult.err e), c)
    ∧ betweenNext le lower upper () (some (RResult.err e)) = (some (RResult.err e), ())
    ∧ ensureNext p msgWe () (some (RResult.err e)) = (some (RResult.err e), ())
    ∧ constOverNext beq ext stored (some (RResult.err e)) = (some (RResult.err e), stored)
    ∧ lookBackNext N extLB validLB msgWlb st (some (RResult.err e))
        = (some (RResult.err e), st)
    ∧ liftErrsNext (t := okT) () (some (RResult.err e2))
        = (some (RResult.err ValidErr.lifted), ())
    ∧ castErrsNext (t := okT2) (u := errT2) ()
          (some (RResult.err (CValidErr.description d)))
        = (some (RResult.err (CValidErr.description d)), ())
    ∧ castErrsNext (t := okT2) () (some (RResult.err (CValidErr.withElement x d)))
        = (some (RResult.err (CValidErr.description d)), ()) := by
  refine ⟨rfl, rfl, rfl, rfl, rfl, ?_, rfl, rfl, rfl⟩
  simp only [lookBackNext]
  split <;> rfl

/-- C2: every adapter produces exactly one outcome per item pulled from
its source, so the output has the source's length; every accepted output
value sits at the position of the same accepted input value, preserving
relative order; and the only deviation — the Minimum-Count synthetic
outcome — does not occur while the source lasts: pulling exactly the
source's length from at_least yields just the forwarded items. -/
theorem C2_one_outcome_per_item (α β okT okT2 errT errT2 : Type) [Inhabited β]
    (mc : Nat) (msgWm : α → Nat → String) (pos : Nat)
    (k : Nat) (msgWl : Nat → Nat → String) (c : Nat)
    (le : α → α → Bool) (lower upper : α)
    (p : α → Bool) (msgWe : α → String)
    (beq : β → β → Bool) (ext : α → β) (stored : Option β)
    (N : Nat) (extLB : α → β) (validLB : β → α → Bool) (msgWlb : α → β → String)
    (st : Nat × List β)
    (l : List (VResult α)) (l2 : List (RResult okT (ValidErr errT)))
    (l3 : List (RResult okT2 (CValidErr errT2))) :
    (runNext (atMostNext mc msgWm) pos l).length = l.length
    ∧ (runNext (atLeastNext k msgWl) c l).length = l.length
    ∧ (runNext (betweenNext le lower upper) () l).length = l.length
    ∧ (runNext (ensureNext p msgWe) () l).length = l.length
    ∧ (runNext (constOverNext beq ext) stored l).length = l.length
    ∧ (runNext (lookBackNext N extLB validLB msgWlb) st l).length = l.length
    ∧ (runNext liftErrsNext () l2).length = l2.length
    ∧ (runNext castErrsNext () l3).length = l3.length
    ∧ (∀ (i : Nat) v, (runNext (atMostNext mc msgWm) pos l)[i]? = some (RResult.ok v)
        → l[i]? = some (RResult.ok v))
    ∧ (∀ (i : Nat) v, (runNext (atLeastNext k msgWl) c l)[i]? = some (RResult.ok v)
        → l[i]? = some (RResult.ok v))
    ∧ (∀ (i : Nat) v, (runNext (betweenNext le lower upper) () l)[i]? = some (RResult.ok v)
        → l[i]? = some (RResult.ok v))
    ∧ (∀ (i : Nat) v, (runNext (ensureNext p msgWe) () l)[i]? = some (RResult.ok v)
        → l[i]? = some (RResult.ok v))
    ∧ (∀ (i : Nat) v, (runNext (constOverNext beq ext) stored l)[i]? = some (RResult.ok v)
        → l[i]? = some (RResult.ok v))
    ∧ (∀ (i : Nat) v, (runNext (lookBackNext N extLB validLB msgWlb) st l)[i]? = some (RResult.ok v)
        → l[i]? = some (RResult.ok v))
    ∧ (∀ (i : Nat) v, (runNext liftErrsNext () l2)[i]? = some (RResult.ok v)
        → l2[i]? = some (RResult.ok v))
    ∧ (∀ (i : Nat) v, (runNext castErrsNext () l3)[i]? = some (RResult.ok v)
        → l3[i]? = some (RResult.ok v))
    ∧ pullsNext (atLeastNext k msgWl) l.length c l = l.map some := by
  refine ⟨runNext_length _ (atMostNext_isSome mc msgWm) pos l,
    runNext_length _ (atLeastNext_isSome k msgWl) c l,
    runNext_length _ (betweenNext_isSome le lower upper) () l,
    runNext_length _ (ensureNext_isSome p msgWe) () l,
    runNext_length _ (constOverNext_isSome beq ext) stored l,
    runNext_length _ (lookBackNext_isSome N extLB validLB msgWlb) st l,
    runNext_length _ liftErrsNext_isSome () l2,
    runNext_length _ castErrsNext_isSome () l3,
    fun i v => runNext_ok_preserve _ (atMostNext_isSome mc msgWm)
      (atMostNext_ok_src mc msgWm) pos l i v,
    fun i v => runNext_ok_preserve _ (atLeastNext_isSome k msgWl)
      (atLeastNext_ok_src k msgWl) c l i v,
    fun i v => runNext_ok_preserve _ (betweenNext_isSome le lower upper)
      (betweenNext_ok_src le lower upper) () l i v,
    fun i v => runNext_ok_preserve _ (ensureNext_isSome p msgWe)
      (ensureNext_ok_src p msgWe) () l i v,
    fun i v => runNext_ok_preserve _ (constOverNext_isSome beq ext)
      (constOverNext_ok_src beq ext) stored l i v,
    fun i v => runNext_ok_preserve _ (lookBackNext_isSome N extLB validLB msgWlb)
      (lookBackNext_ok_src N extLB validLB msgWlb) st l i v,
    fun i v => runNext_ok_preserve _ liftErrsNext_isSome liftErrsNext_ok_src () l2 i v,
    fun i v => runNext_ok_preserve _ castErrsNext_isSome castErrsNext_ok_src () l3 i v,
    ?_⟩
  have h := atLeast_pulls_take k msgWl l l.length c (le_refl _)
  simpa [List.take_length] using h

/-- C2 (witness): apply the order-preservation part of
`C2_one_outcome_per_item` at a concrete one-element source. -/
theorem C2_witness :
    ([RResult.ok 5] : List (VResult Nat))[0]? = some (RResult.ok 5) := by
  have h := C2_one_outcome_per_item Nat Nat Nat Nat Nat Nat
    1 (fun _ _ => "") 0 1 (fun _ _ => "") 0
    (fun _ _ => true) 0 0 (fun _ => true) (fun _ => "")
    (fun _ _ => true) (fun x => x) none
    1 (fun x => x) (fun _ _ => true) (fun _ _ => "") (0, [0])
    [RResult.ok 5] [] []
  exact h.2.2.2.2.2.2.2.2.1 0 5 (by decide)

/-- C3: starting from a fresh counter, at_most(k) forwards an accepted
element exactly when fewer than `k` accepted elements precede it, wraps
every later accepted element in `TooMany` carrying that element, and its
counter after the whole source is the number of accepted elements capped
at `k` — rejected elements never increment it, so once the cap is reached
the adapter never recovers. -/
theorem C3_at_most_cap {α : Type} (mc : Nat) (msgW : α → Nat → String)
    (l : List (VResult α)) (i : Nat) (v : α) :
    (l[i]? = some (RResult.ok v) → acceptedCount (l.take i) < mc →
      (runNext (atMostNext mc msgW) 0 l)[i]? = some (RResult.ok v))
    ∧ (l[i]? = some (RResult.ok v) → mc ≤ acceptedCount (l.take i) →
      (runNext (atMostNext mc msgW) 0 l)[i]?
        = some (RResult.err (ValidErr.tooMany v (msgW v mc))))
    ∧ stateAfter (atMostNext mc msgW) 0 l = min (acceptedCount l) mc := by
  refine ⟨?_, ?_, ?_⟩
  · intro hx hc
    rw [atMost_run_get_ok mc msgW l 0 i v hx, if_pos (by omega)]
  · intro hx hc
    rw [atMost_run_get_ok mc msgW l 0 i v hx, if_neg (by omega)]
  · rw [atMost_stateAfter mc msgW l 0]
    rcases Nat.eq_zero_or_pos mc with h0 | h0
    · subst h0; simp
    · rw [if_neg (by omega), Nat.zero_add]

/-- C3 (witness): with cap 1 over two accepted elements, the second is
wrapped in `TooMany`. -/
theorem C3_witness :
    (runNext (atMostNext 1 (fun _ _ => "")) 0 [RResult.ok (0 : Nat), RResult.ok 1])[1]?
      = some (RResult.err (ValidErr.tooMany 1 "")) :=
  (C3_at_most_cap 1 (fun _ _ => "") [RResult.ok 0, RResult.ok 1] 1 1).2.1
    (by decide) (by decide)

/-- C4: when the source holds fewer accepted elements than the threshold,
at_least emits its synthetic `TooFew` exactly when the consumer pulls past
the source's natural end — pulls up to the source length yield only the
forwarded items, the pull after the last item yields the one `TooFew`
(carrying the accepted count and threshold in its message, no element),
and every pull beyond that signals exhaustion; when the threshold is met
no synthetic outcome ever appears, only exhaustion. -/
theorem C4_at_least_trailing {α : Type} (k : Nat) (msgW : Nat → Nat → String)
    (l : List (VResult α)) (hk : acceptedCount l < k) :
    (∀ n, n ≤ l.length →
      pullsNext (atLeastNext k msgW) n 0 l = (l.take n).map some)
    ∧ (∀ j, pullsNext (atLeastNext k msgW) (l.length + 1 + j) 0 l
        = l.map some
          ++ some (RResult.err (ValidErr.tooFew (msgW (acceptedCount l) k)))
          :: List.replicate j none)
    ∧ (∀ (l' : List (VResult α)) (k' : Nat), k' ≤ acceptedCount l' → ∀ j,
      pullsNext (atLeastNext k' msgW) (l'.length + j) 0 l'
        = l'.map some ++ List.replicate j none) := by
  refine ⟨fun n hn => atLeast_pulls_take k msgW l n 0 hn, ?_, ?_⟩
  · intro j
    have hidx : l.length + 1 + j = l.length + (j + 1) := by omega
    rw [hidx, atLeast_pulls_split k msgW l (j + 1) 0, Nat.zero_add,
      atLeast_pulls_exhausted_lt k msgW j (acceptedCount l) hk]
  · intro l' k' hk' j
    rw [atLeast_pulls_split k' msgW l' j 0, Nat.zero_add,
      atLeast_pulls_exhausted_ge k' msgW j (acceptedCount l') hk']

/-- C4 (witness): at_least(2) over the single accepted element 7, pulled
three times, yields the forwarded element, one `TooFew` and exhaustion. -/
theorem C4_witness :
    pullsNext (atLeastNext 2 (fun _ _ => "")) 3 0 [RResult.ok (7 : Nat)]
      = [some (RResult.ok 7), some (RResult.err (ValidErr.tooFew "")), none] := by
  have h := (C4_at_least_trailing 2 (fun _ _ => "")
    [RResult.ok (7 : Nat)] (by decide)).2.1 1
  simpa using h

/-- C5: for a window of size at least 1, when the look_back test fails on
an accepted element the element is emitted as `LookBackFailed` and the
position counter and circular buffer are left completely unchanged — so
the next accepted element is compared against the same stored value —
while each of the first `N` accepted elements is stored at its slot and
accepted unconditionally; the spec's cyclic example over
`2,3,4,2,0,1,2,3,4,5` with window 3 behaves accordingly. -/
theorem C5_look_back_frame {α β : Type} [Inhabited β] (N : Nat) (ext : α → β)
    (valid : β → α → Bool) (msgW : α → β → String)
    (pos : Nat) (store : List β) (v : α)
    (hlen : store.length = N) (hN : 1 ≤ N) :
    (N ≤ pos → valid (store.getD (pos % N) default) v = false →
      lookBackNext N ext valid msgW (pos, store) (some (RResult.ok v))
        = (some (RResult.err (ValidErr.lookBackFailed v
            (msgW v (store.getD (pos % N) default)))), (pos, store)))
    ∧ (pos < N →
      lookBackNext N ext valid msgW (pos, store) (some (RResult.ok v))
        = (some (RResult.ok v), (pos + 1, store.set pos (ext v))))
    ∧ runNext (lookBackNext 3 (fun i : Int => i) (fun p c => decide (p < c))
          (fun _ _ => "")) (lookBackInit Int 3)
        ([2, 3, 4, 2, 0, 1, 2, 3, 4, 5].map RResult.ok)
      = [RResult.ok 2, RResult.ok 3, RResult.ok 4,
         RResult.err (ValidErr.lookBackFailed 2 ""),
         RResult.err (ValidErr.lookBackFailed 0 ""),
         RResult.err (ValidErr.lookBackFailed 1 ""),
         RResult.err (ValidErr.lookBackFailed 2 ""),
         RResult.ok 3, RResult.ok 4, RResult.ok 5] := by
  refine ⟨?_, ?_, by decide⟩
  · intro hge hf
    simp only [lookBackNext]
    rw [if_neg (by omega : ¬ store.length = 0)]
    rw [if_pos hge, if_neg (by simp only [hf]; exact Bool.false_ne_true)]
  · intro hlt
    simp only [lookBackNext]
    rw [if_neg (by omega : ¬ store.length = 0)]
    rw [if_neg (by omega : ¬ pos ≥ N)]

/-- C5 (witness): window 3, buffer `[2,3,4]`, position 3 — the accepted
element 2 fails `former < current` against the stored 2 and is rejected
with state untouched. -/
theorem C5_witness :
    lookBackNext 3 (fun i : Int => i) (fun p c => decide (p < c)) (fun _ _ => "")
        (3, [2, 3, 4]) (some (RResult.ok 2))
      = (some (RResult.err (ValidErr.lookBackFailed 2 "")), (3, [2, 3, 4])) :=
  (C5_look_back_frame 3 (fun i : Int => i) (fun p c => decide (p < c))
    (fun _ _ => "") 3 [2, 3, 4] 2 (by decide) (by decide)).1 (by decide) (by decide)

/-- C6: between forwards an accepted element exactly when
`lower <= v && v <= upper` holds under the supplied boolean partial-order
comparison (an element incomparable to the bounds yields `false` and is
rejected), otherwise wrapping it in `OutOfBounds` carrying the element;
on `0..=4` with bounds `[1,3]` the boundary values 1 and 3 are accepted. -/
theorem C6_between_inclusive {α : Type} (le : α → α → Bool) (lower upper v : α) :
    ((le lower v && le v upper) = true →
      betweenNext le lower upper () (some (RResult.ok v)) = (some (RResult.ok v), ()))
    ∧ ((le lower v && le v upper) = false →
      betweenNext le lower upper () (some (RResult.ok v))
        = (some (RResult.err (ValidErr.outOfBounds v none)), ()))
    ∧ runNext (betweenNext (fun a b : Int => decide (a ≤ b)) 1 3) ()
        ([0, 1, 2, 3, 4].map RResult.ok)
      = [RResult.err (ValidErr.outOfBounds 0 none), RResult.ok 1, RResult.ok 2,
         RResult.ok 3, RResult.err (ValidErr.outOfBounds 4 none)] := by
  refine ⟨?_, ?_, by decide⟩
  · intro h; simp [betweenNext, h]
  · intro h; simp [betweenNext, h]

/-- C6 (witness): the boundary value 1 with bounds `[1,3]` over `Int` is
accepted. -/
theorem C6_witness :
    betweenNext (fun a b : Int => decide (a ≤ b)) 1 3 () (some (RResult.ok 1))
      = (some (RResult.ok 1), ()) :=
  (C6_between_inclusive (fun a b : Int => decide (a ≤ b)) 1 3 1).1 (by decide)

/-- C7: const_over accepts the first accepted element unconditionally and
records its extracted value as the reference; a later accepted element is
accepted exactly when its extraction compares equal to the reference and
is otherwise wrapped in `BrokenConstant` carrying the element; the spec's
example over `"ABc"` with the uppercase extractor behaves accordingly. -/
theorem C7_const_over {α β : Type} (beq : β → β → Bool) (ext : α → β) (r : β) (v : α) :
    constOverNext beq ext none (some (RResult.ok v))
      = (some (RResult.ok v), some (ext v))
    ∧ (beq (ext v) r = true →
      constOverNext beq ext (some r) (some (RResult.ok v)) = (some (RResult.ok v), some r))
    ∧ (beq (ext v) r = false →
      constOverNext beq ext (some r) (some (RResult.ok v))
        = (some (RResult.err (ValidErr.brokenConstant v none)), some r))
    ∧ runNext (constOverNext (fun a b : Bool => a == b) (fun c : Char => c.isUpper))
        none (['A', 'B', 'c'].map RResult.ok)
      = [RResult.ok 'A', RResult.ok 'B',
         RResult.err (ValidErr.brokenConstant 'c' none)] := by
  refine ⟨rfl, ?_, ?_, by decide⟩
  · intro h; simp [constOverNext, h]
  · intro h; simp [constOverNext, h]

/-- C7 (witness): with the reference fixed to `true`, the lowercase 'c'
extracts to `false` and is rejected as `BrokenConstant`. -/
theorem C7_witness :
    constOverNext (fun a b : Bool => a == b) (fun c : Char => c.isUpper) (some true)
        (some (RResult.ok 'c'))
      = (some (RResult.err (ValidErr.brokenConstant 'c' none)), some true) :=
  (C7_const_over (fun a b : Bool => a == b) (fun c : Char => c.isUpper) true 'c').2.2.1
    (by decide)

/-- C8 (counterexample): the casting flavor does not map every `Err`
input to a single marker carrying no inner detail — two `Err` inputs
differing only in their description produce different outputs, so the
output depends on the input error's content. -/
theorem C8_counterexample :
    castErrsNext (t := Nat) (u := Nat) ()
        (some (RResult.err (CValidErr.withElement 0 "a")))
      ≠ castErrsNext (t := Nat) (u := Nat) ()
        (some (RResult.err (CValidErr.withElement 0 "b"))) := by
  decide

/-- C8 (amended): both bridging flavors map `Ok(t)` to an accepted
outcome carrying `t` and every `Err` input to a rejection, and forward
exhaustion; but only the lifting flavor maps every `Err` to the single
contentless `Lifted` marker — the casting flavor keeps the inner
description, mapping `Description(d)` and `WithElement(_, d)` both to
`Description(d)` — so the two flavors are equivalent in which positions
they accept and reject, not in the rejection payload. -/
theorem C8_bridging (okT errT okT2 errT2 : Type) (v : okT) (e : ValidErr errT)
    (w : okT2) (x : errT2) (d : String) :
    liftErrsNext (u := errT) () (some (RResult.ok v)) = (some (RResult.ok v), ())
    ∧ liftErrsNext (t := okT) () (some (RResult.err e))
        = (some (RResult.err ValidErr.lifted), ())
    ∧ liftErrsNext (t := okT) (u := errT) () none = (none, ())
    ∧ castErrsNext (u := errT2) () (some (RResult.ok w)) = (some (RResult.ok w), ())
    ∧ castErrsNext (t := okT2) (u := errT2) ()
          (some (RResult.err (CValidErr.description d)))
        = (some (RResult.err (CValidErr.description d)), ())
    ∧ castErrsNext (t := okT2) () (some (RResult.err (CValidErr.withElement x d)))
        = (some (RResult.err (CValidErr.description d)), ())
    ∧ castErrsNext (t := okT2) (u := errT2) () none = (none, ()) :=
  ⟨rfl, rfl, rfl, rfl, rfl, rfl, rfl⟩

/-- C9: with window size 0 the look_back adapter passes every pulled item
through unchanged and never rejects: the empty-store guard (mirroring the
`value_store.len() == 0` check placed before any `position % N` indexing)
makes each step the identity on the item and on the state, so the run
over any source returns that source and the state after it is the
initial state. -/
theorem C9_zero_window {α β : Type} [Inhabited β] (ext : α → β)
    (valid : β → α → Bool) (msgW : α → β → String)
    (pos : Nat) (input : Option (VResult α)) (l : List (VResult α)) :
    lookBackNext 0 ext valid msgW (pos, ([] : List β)) input = (input, (pos, []))
    ∧ runNext (lookBackNext 0 ext valid msgW) (lookBackInit β 0) l = l
    ∧ stateAfter (lookBackNext 0 ext valid msgW) (lookBackInit β 0) l
        = lookBackInit β 0 :=
  ⟨lookBack_empty_store_next 0 ext valid msgW pos input,
   lookBack_empty_store_run 0 ext valid msgW l 0,
   lookBack_empty_store_stateAfter 0 ext valid msgW l 0⟩

/-- C10: once the const_over reference is set, no call to next ever
modifies it — not a matching accepted element, not an upstream-rejected
element, not an element the adapter rejects as `BrokenConstant`, and not
exhaustion — neither in a single step nor across a whole source. -/
theorem C10_reference_immutable {α β : Type} (beq : β → β → Bool) (ext : α → β)
    (r : β) (input : Option (VResult α)) (l : List (VResult α)) :
    (constOverNext beq ext (some r) input).2 = some r
    ∧ stateAfter (constOverNext beq ext) (some r) l = some r := by
  refine ⟨constOver_stored_next beq ext r input, ?_⟩
  induction l with
  | nil => rfl
  | cons x xs ih =>
    rw [stateAfter, constOver_stored_next beq ext r (some x)]
    exact ih

end Validiter
